import Mathlib

set_option maxHeartbeats 1000000

/-!
Shallow embedding of the deterministic frame-indexed animation compositor
behind the demo-video assets: piecewise-linear interpolation with
configurable edge policies, a closed-form damped-spring solver, linear
audio envelopes, and time-windowed sequence composition, together with the
concrete composition declared in `DemoVideo.tsx` (600 frames at 15 fps).
-/

/-- Edge behaviour of the interpolator outside the input range:
`clamp` holds the nearest endpoint's output, `extend` continues the
nearest segment's slope.  Modelled from the spec: the Interpolator itself
lives in the external animation library; only its call sites are in the
repository. -/
inductive EdgePolicy
  | clamp
  | extend
  deriving DecidableEq

/-- Index of the segment of `inputRange` used for input `x`: the last
segment whose left endpoint is `≤ x`, clamped into the valid segment
indices `[0, length - 2]`. -/
def segIndex {α : Type} [LinearOrder α] (x : α) (inputRange : List α) : ℕ :=
  min (inputRange.length - 2) (inputRange.countP (fun a => decide (a ≤ x)) - 1)

/-- Modelled from the spec: `map(x, inputRange, outputRange, edgePolicy)`
of the Interpolator component (the library's `interpolate`).  Piecewise
linear inside the range; outside, each side independently clamps or
extends along the nearest segment. -/
def interpolate {α : Type} [LinearOrderedField α]
    (x : α) (inputRange outputRange : List α)
    (eLeft eRight : EdgePolicy) : α :=
  let i := segIndex x inputRange
  let x0 := inputRange.getD i 0
  let x1 := inputRange.getD (i + 1) 0
  let y0 := outputRange.getD i 0
  let y1 := outputRange.getD (i + 1) 0
  let xe :=
    if x < inputRange.headD 0 then
      match eLeft with
      | EdgePolicy.clamp => x0
      | EdgePolicy.extend => x
    else if inputRange.getLastD 0 < x then
      match eRight with
      | EdgePolicy.clamp => x1
      | EdgePolicy.extend => x
    else x
  y0 + (y1 - y0) * (xe - x0) / (x1 - x0)

/-- Configuration faults of the Interpolator, per the spec's error
taxonomy. -/
inductive ConfigurationError
  | rangeLengthMismatch
  | inputRangeNotMonotonic
  | rangeTooShort
  deriving DecidableEq

/-- Modelled from the spec: the Interpolator entry point with its
definition-time validation.  Malformed ranges fail with a
`ConfigurationError` and are never silently coerced. -/
def interpolateChecked {α : Type} [LinearOrderedField α]
    (x : α) (inputRange outputRange : List α)
    (eLeft eRight : EdgePolicy) : Except ConfigurationError α :=
  if inputRange.length ≠ outputRange.length then
    Except.error ConfigurationError.rangeLengthMismatch
  else if ¬ List.Chain' (· < ·) inputRange then
    Except.error ConfigurationError.inputRangeNotMonotonic
  else if inputRange.length < 2 then
    Except.error ConfigurationError.rangeTooShort
  else
    Except.ok (interpolate x inputRange outputRange eLeft eRight)

/-- Modelled from the spec: an Envelope is an ordered list of
`(time, value)` breakpoints, linear between and clamped outside. -/
structure Envelope (α : Type) where
  breakpoints : List (α × α)

/-- Modelled from the spec: `valueAt(time)` evaluates the envelope via
the Interpolator over its breakpoints with `clamp` on both edges. -/
def Envelope.valueAt {α : Type} [LinearOrderedField α]
    (e : Envelope α) (time : α) : α :=
  interpolate time (e.breakpoints.map Prod.fst) (e.breakpoints.map Prod.snd)
    EdgePolicy.clamp EdgePolicy.clamp

/-- The two-breakpoint fade envelope `(fadeStart, 1) → (fadeEnd, 0)`. -/
def fadeEnvelope (fadeStart fadeEnd : ℚ) : Envelope ℚ :=
  ⟨[(fadeStart, 1), (fadeEnd, 0)]⟩

/-- Modelled from the spec: the SpringSolver parameter record — physical
constants plus the explicit output range `[from, to]` (normalized
`0 → 1` when left at the defaults). -/
structure SpringSpec where
  mass : ℝ
  stiffness : ℝ
  damping : ℝ
  from' : ℝ
  to' : ℝ

/-- Result of one SpringSolver evaluation. -/
structure SpringResult where
  value : ℝ
  isSettled : Prop

/-- Undamped angular frequency `ω = √(k / m)`. -/
noncomputable def angularFreq (m k : ℝ) : ℝ := Real.sqrt (k / m)

/-- Damping ratio `ζ = c / (2√(k m))`. -/
noncomputable def dampingRatio (m k c : ℝ) : ℝ := c / (2 * Real.sqrt (k * m))

/-- Modelled from the spec: closed-form normalized position (`0` at rest,
target `1`) of the damped harmonic oscillator at continuous time `t`, in
the under-, critically and over-damped regimes. -/
noncomputable def oscPos (m k c t : ℝ) : ℝ :=
  if dampingRatio m k c < 1 then
    1 - Real.exp (-(dampingRatio m k c * angularFreq m k * t)) *
      (Real.cos (angularFreq m k * Real.sqrt (1 - dampingRatio m k c ^ 2) * t) +
        dampingRatio m k c / Real.sqrt (1 - dampingRatio m k c ^ 2) *
          Real.sin (angularFreq m k * Real.sqrt (1 - dampingRatio m k c ^ 2) * t))
  else if dampingRatio m k c = 1 then
    1 - Real.exp (-(angularFreq m k * t)) * (1 + angularFreq m k * t)
  else
    1 - ((dampingRatio m k c * angularFreq m k +
            angularFreq m k * Real.sqrt (dampingRatio m k c ^ 2 - 1)) *
          Real.exp (-((dampingRatio m k c * angularFreq m k -
            angularFreq m k * Real.sqrt (dampingRatio m k c ^ 2 - 1)) * t)) -
        (dampingRatio m k c * angularFreq m k -
            angularFreq m k * Real.sqrt (dampingRatio m k c ^ 2 - 1)) *
          Real.exp (-((dampingRatio m k c * angularFreq m k +
            angularFreq m k * Real.sqrt (dampingRatio m k c ^ 2 - 1)) * t))) /
      (2 * (angularFreq m k * Real.sqrt (dampingRatio m k c ^ 2 - 1)))

/-- Modelled from the spec: closed-form normalized velocity of the same
oscillator. -/
noncomputable def oscVel (m k c t : ℝ) : ℝ :=
  if dampingRatio m k c < 1 then
    angularFreq m k / Real.sqrt (1 - dampingRatio m k c ^ 2) *
      Real.exp (-(dampingRatio m k c * angularFreq m k * t)) *
      Real.sin (angularFreq m k * Real.sqrt (1 - dampingRatio m k c ^ 2) * t)
  else if dampingRatio m k c = 1 then
    angularFreq m k ^ 2 * t * Real.exp (-(angularFreq m k * t))
  else
    (dampingRatio m k c * angularFreq m k -
        angularFreq m k * Real.sqrt (dampingRatio m k c ^ 2 - 1)) *
      (dampingRatio m k c * angularFreq m k +
        angularFreq m k * Real.sqrt (dampingRatio m k c ^ 2 - 1)) /
      (2 * (angularFreq m k * Real.sqrt (dampingRatio m k c ^ 2 - 1))) *
      (Real.exp (-((dampingRatio m k c * angularFreq m k -
          angularFreq m k * Real.sqrt (dampingRatio m k c ^ 2 - 1)) * t)) -
        Real.exp (-((dampingRatio m k c * angularFreq m k +
          angularFreq m k * Real.sqrt (dampingRatio m k c ^ 2 - 1)) * t)))

/-- Settling tolerance on displacement and velocity (spec: "fixed small
tolerances (e.g., 0.001)"). -/
noncomputable def settleTolerance : ℝ := 1 / 1000

/-- Modelled from the spec: `evaluate(frameOffset, fps, spec)` of the
SpringSolver.  Negative offsets return the rest value; nonnegative
offsets evaluate the closed form at `t = frameOffset / fps` and map the
normalized position into `[from, to]` via the Interpolator.  `isSettled`
holds once displacement-from-target and velocity are below the
tolerance. -/
noncomputable def evaluate (frameOffset fps : ℝ) (s : SpringSpec) : SpringResult :=
  if frameOffset < 0 then
    { value := s.from', isSettled := |s.to' - s.from'| < settleTolerance }
  else
    { value := interpolate (oscPos s.mass s.stiffness s.damping (frameOffset / fps))
        [0, 1] [s.from', s.to'] EdgePolicy.extend EdgePolicy.extend,
      isSettled :=
        |s.to' - interpolate (oscPos s.mass s.stiffness s.damping (frameOffset / fps))
            [0, 1] [s.from', s.to'] EdgePolicy.extend EdgePolicy.extend| < settleTolerance ∧
        |(s.to' - s.from') * oscVel s.mass s.stiffness s.damping (frameOffset / fps)| <
          settleTolerance }

/-- The spring configuration used by the demo components: Remotion-style
defaults `mass = 1`, `stiffness = 100`, normalized `0 → 1`, with the
given damping. -/
noncomputable def springConfigDamping (damping : ℝ) : SpringSpec :=
  { mass := 1, stiffness := 100, damping := damping, from' := 0, to' := 1 }

/-- The critically damped closed form for the `damping = 20` demo
spring: `1 - e^{-10 t} (1 + 10 t)`. -/
noncomputable def gCrit (t : ℝ) : ℝ := 1 - Real.exp (-(10 * t)) * (1 + 10 * t)

/-- The value of the `damping = 20` FadeIn spring at a frame offset,
at the demo's 15 fps. -/
noncomputable def fadeValue (frameOffset : ℝ) : ℝ :=
  (evaluate frameOffset 15 (springConfigDamping 20)).value

/-- Slow root magnitude `|r₁| = 15 - 5√5` of the over-damped
`damping = 30` demo spring. -/
noncomputable def rA : ℝ := 15 - 5 * Real.sqrt 5

/-- Fast root magnitude `|r₂| = 15 + 5√5` of the over-damped
`damping = 30` demo spring. -/
noncomputable def rB : ℝ := 15 + 5 * Real.sqrt 5

/-- Over-damped closed form for the `damping = 30` demo spring. -/
noncomputable def gOver (t : ℝ) : ℝ :=
  1 - (rB * Real.exp (-(rA * t)) - rA * Real.exp (-(rB * t))) / (rB - rA)

/-- Velocity of the over-damped `damping = 30` demo spring. -/
noncomputable def gOverVel (t : ℝ) : ℝ :=
  rA * rB / (rB - rA) * (Real.exp (-(rA * t)) - Real.exp (-(rB * t)))

/-- The `damping = 30` typing spring driving a TerminalLine
(`spring({frame: frame - delay, fps, config: {damping: 30}})`). -/
noncomputable def terminalProgress (frame delay : ℕ) : ℝ :=
  (evaluate ((frame : ℝ) - delay) 15 (springConfigDamping 30)).value

/-- `chars = Math.floor(progress * text.length)` of TerminalLine. -/
noncomputable def terminalChars (frame delay : ℕ) (text : List Char) : ℕ :=
  ⌊terminalProgress frame delay * text.length⌋₊

/-- The rendered text of a TerminalLine: the whole text when
`progress > 0.99` (`done`), otherwise `text.slice(0, chars)`. -/
noncomputable def terminalRendered (frame delay : ℕ) (text : List Char) : List Char :=
  if 0.99 < terminalProgress frame delay then text
  else text.take (terminalChars frame delay text)

/-- The blink phase of the cursor: `frame % 15 < 8`. -/
def blinkOn (frame : ℕ) : Prop := frame % 15 < 8

/-- Cursor rendering of a TerminalLine (lines 20, 24 and 25 of
`DemoVideo.tsx`): a cursor span with nonzero opacity is present iff the
blink phase is on and either the line is not yet done, or it is done and
`nextDelay` is unset or not yet reached. -/
def cursorVisible (frame delay : ℕ) (nextDelay : Option ℕ) : Prop :=
  ((match nextDelay with
    | none => True
    | some n => frame < n) ∧ 0.99 < terminalProgress frame delay ∧ blinkOn frame) ∨
  (¬ 0.99 < terminalProgress frame delay ∧ blinkOn frame)

/-- Modelled from the spec: a Sequence is a time-windowed placement of a
content generator within a parent timeline
(`<Sequence from={s} durationInFrames={d}>`). -/
structure Sequence (α : Type) where
  start : ℕ
  durationInFrames : ℕ
  content : ℕ → α

/-- Activity rule: a Sequence with start `s` and duration `d` is active
at global frame `g` iff `s ≤ g < s + d`. -/
def Sequence.activeAt {α : Type} (s : Sequence α) (g : ℕ) : Prop :=
  s.start ≤ g ∧ g < s.start + s.durationInFrames

instance {α : Type} (s : Sequence α) (g : ℕ) : Decidable (s.activeAt g) :=
  inferInstanceAs (Decidable (s.start ≤ g ∧ g < s.start + s.durationInFrames))

/-- Local frame of an active Sequence: `g - start`. -/
def Sequence.localFrame {α : Type} (s : Sequence α) (g : ℕ) : ℕ := g - s.start

/-- Frame resolution of a Sequence: the content generator is invoked at
the local frame only while the window is active. -/
def Sequence.resolve {α : Type} (s : Sequence α) (g : ℕ) : Option α :=
  if s.activeAt g then some (s.content (s.localFrame g)) else none

/-- FadeIn's opacity spring (`spring({frame: frame - delay, fps,
config: {damping: 20}})`). -/
noncomputable def fadeOpacity (frame delay : ℝ) : ℝ :=
  (evaluate (frame - delay) 15 (springConfigDamping 20)).value

/-- FadeIn's vertical offset `interpolate(opacity, [0, 1], [20, 0])`. -/
noncomputable def fadeShift (frame delay : ℝ) : ℝ :=
  interpolate (fadeOpacity frame delay) [0, 1] [20, 0]
    EdgePolicy.extend EdgePolicy.extend

/-- A demo spring value with the given damping at the given offset. -/
noncomputable def springValue (damping offset : ℝ) : ℝ :=
  (evaluate offset 15 (springConfigDamping damping)).value

/-- Title card scene content (three FadeIns, delays 0, 15, 30). -/
noncomputable def titleSceneContent (f : ℕ) : List ℝ :=
  [fadeOpacity f 0, fadeShift f 0, fadeOpacity f 15, fadeShift f 15,
    fadeOpacity f 30, fadeShift f 30]

/-- Delays of the nine TerminalLines of the install scene. -/
def terminalDelays : List ℕ := [0, 40, 70, 100, 120, 135, 160, 175, 190]

/-- Install scene content: the typing springs of the terminal lines. -/
noncomputable def terminalSceneContent (f : ℕ) : List ℝ :=
  terminalDelays.map (fun d => terminalProgress f d)

/-- Dashboard scene content.  In the source the card/bar/ring/fault
springs are driven by the global frame with offsets `300 + 8i`,
`320 + 6i`, `330`, `335 + 6i`; at local frame `f` these are `f - 8i`,
`f - 20 - 6i`, `f - 30`, `f - 35 - 6i`. -/
noncomputable def dashboardSceneContent (f : ℕ) : List ℝ :=
  [fadeOpacity f 0, fadeShift f 0] ++
  ((List.range 4).map fun i => springValue 20 ((f : ℝ) - 8 * i)) ++
  ((List.range 5).map fun i => springValue 15 ((f : ℝ) - 20 - 6 * i)) ++
  [springValue 20 ((f : ℝ) - 30),
    interpolate (springValue 20 ((f : ℝ) - 30)) [0, 1] [0, 288]
      EdgePolicy.extend EdgePolicy.extend] ++
  ((List.range 4).map fun i => springValue 20 ((f : ℝ) - 35 - 6 * i))

/-- Outro scene content (FadeIns with delays 0, 30, 45). -/
noncomputable def outroSceneContent (f : ℕ) : List ℝ :=
  [fadeOpacity f 0, fadeShift f 0, fadeOpacity f 30, fadeShift f 30,
    fadeOpacity f 45, fadeShift f 45]

/-- The install scene Sequence: `from = 90, durationInFrames = 210`. -/
noncomputable def installSeq : Sequence (List ℝ) := ⟨90, 210, terminalSceneContent⟩

/-- The four top-level scene Sequences of `DemoVideo`, in declaration
order: title (0, 90), install (90, 210), dashboard (300, 180), outro
(480, 120). -/
noncomputable def demoScenes : List (Sequence (List ℝ)) :=
  [⟨0, 90, titleSceneContent⟩, installSeq,
    ⟨300, 180, dashboardSceneContent⟩, ⟨480, 120, outroSceneContent⟩]

/-- FrameState of the demo composition at global frame `g`: each scene's
resolution result. -/
noncomputable def demoFrame (g : ℕ) : List (Option (List ℝ)) :=
  demoScenes.map (fun s => s.resolve g)

/-- Resolving a list of frames in the given order. -/
noncomputable def resolveOrder (order : List ℕ) : List (ℕ × List (Option (List ℝ))) :=
  order.map (fun g => (g, demoFrame g))

/-- On a two-point range the interpolator is the single linear segment,
with the effective input first pushed through the edge policies. -/
theorem interpolate_pair {α : Type} [LinearOrderedField α]
    (x x0 x1 y0 y1 : α) (eL eR : EdgePolicy) :
    interpolate x [x0, x1] [y0, y1] eL eR =
      y0 + (y1 - y0) *
        ((if x < x0 then
            match eL with
            | EdgePolicy.clamp => x0
            | EdgePolicy.extend => x
          else if x1 < x then
            match eR with
            | EdgePolicy.clamp => x1
            | EdgePolicy.extend => x
          else x) - x0) / (x1 - x0) := by
  have h : segIndex x [x0, x1] = 0 := by
    simp [segIndex]
  simp only [interpolate, h]
  simp [List.getD, List.getLastD]

theorem getLastD_irrel {α : Type} {l : List α} (h : l ≠ []) (d₁ d₂ : α) :
    l.getLastD d₁ = l.getLastD d₂ := by
  cases l with
  | nil => exact absurd rfl h
  | cons a t => rw [List.getLastD_cons, List.getLastD_cons]

theorem getD_zero {α : Type} (l : List α) (d : α) (h : l ≠ []) :
    l.getD 0 d = l.headD d := by
  cases l with
  | nil => exact absurd rfl h
  | cons a t => rfl

theorem getD_last {α : Type} :
    ∀ (l : List α) (d : α), l ≠ [] → l.getD (l.length - 1) d = l.getLastD d := by
  intro l
  induction l with
  | nil => intro d h; exact absurd rfl h
  | cons a t ih =>
    intro d _
    cases t with
    | nil => rfl
    | cons b t' =>
      rw [List.getLastD_cons]
      have h1 : (a :: b :: t').length - 1 = (b :: t').length - 1 + 1 := by
        simp [List.length_cons]
      rw [h1, List.getD_cons_succ, ih d (by simp),
        getLastD_irrel (by simp) d a]

theorem mem_le_getLastD {α : Type} [LinearOrder α] :
    ∀ (l : List α), List.Sorted (· < ·) l → ∀ a ∈ l, ∀ d, a ≤ l.getLastD d := by
  intro l
  induction l with
  | nil => intro _ a ha; cases ha
  | cons h t ih =>
    intro hs a ha d
    rw [List.getLastD_cons]
    rcases List.mem_cons.mp ha with rfl | hat
    · cases t with
      | nil => simp [List.getLastD]
      | cons b t' =>
        have hcons := List.sorted_cons.mp hs
        have hb := ih hcons.2 b (List.mem_cons_self b t') a
        exact le_trans (hcons.1 b (List.mem_cons_self b t')).le hb
    · exact ih (List.sorted_cons.mp hs).2 a hat h

theorem lt_all_of_lt_headD {α : Type} [LinearOrder α] {l : List α} {x d : α}
    (hs : List.Sorted (· < ·) l) (hne : l ≠ []) (hx : x < l.headD d) :
    ∀ a ∈ l, x < a := by
  cases l with
  | nil => exact absurd rfl hne
  | cons h t =>
    intro a ha
    rcases List.mem_cons.mp ha with rfl | hat
    · simpa using hx
    · exact lt_trans (by simpa using hx) ((List.sorted_cons.mp hs).1 a hat)

theorem le_all_of_getLastD_lt {α : Type} [LinearOrder α] {l : List α} {x d : α}
    (hs : List.Sorted (· < ·) l) (hx : l.getLastD d < x) :
    ∀ a ∈ l, a ≤ x :=
  fun a ha => le_of_lt (lt_of_le_of_lt (mem_le_getLastD l hs a ha d) hx)

theorem sorted_getD_lt {α : Type} [LinearOrder α] {l : List α} {i j : ℕ} (d : α)
    (hs : List.Sorted (· < ·) l) (hij : i < j) (hj : j < l.length) :
    l.getD i d < l.getD j d := by
  rw [List.getD_eq_getElem l d (lt_trans hij hj), List.getD_eq_getElem l d hj]
  exact List.pairwise_iff_getElem.mp hs i j (lt_trans hij hj) hj hij

theorem segIndex_left {α : Type} [LinearOrder α] {x : α} {l : List α}
    (h : ∀ a ∈ l, x < a) : segIndex x l = 0 := by
  have hc : l.countP (fun a => decide (a ≤ x)) = 0 :=
    List.countP_eq_zero.mpr (fun a ha => by simpa using not_le.mpr (h a ha))
  rw [segIndex, hc]
  simp

theorem segIndex_right {α : Type} [LinearOrder α] {x : α} {l : List α}
    (h : ∀ a ∈ l, a ≤ x) : segIndex x l = l.length - 2 := by
  have hc : l.countP (fun a => decide (a ≤ x)) = l.length :=
    List.countP_eq_length.mpr (fun a ha => by simpa using h a ha)
  rw [segIndex, hc]
  exact Nat.min_eq_left (by omega)

/-- Claim C5 (statement): for inputs left of the range, `clamp` returns
the first output and `extend` continues the first segment; symmetrically
on the right; the policies act per side. -/
theorem interpolate_edge_policies
    (inputRange outputRange : List ℚ) (x : ℚ)
    (hs : List.Sorted (· < ·) inputRange)
    (hlen : inputRange.length = outputRange.length)
    (h2 : 2 ≤ inputRange.length) :
    (x < inputRange.headD 0 →
      (∀ eR, interpolate x inputRange outputRange EdgePolicy.clamp eR =
        outputRange.headD 0) ∧
      (∀ eR, interpolate x inputRange outputRange EdgePolicy.extend eR =
        outputRange.headD 0 +
          (outputRange.getD 1 0 - outputRange.headD 0) /
            (inputRange.getD 1 0 - inputRange.headD 0) *
            (x - inputRange.headD 0))) ∧
    (inputRange.getLastD 0 < x →
      (∀ eL, interpolate x inputRange outputRange eL EdgePolicy.clamp =
        outputRange.getLastD 0) ∧
      (∀ eL, interpolate x inputRange outputRange eL EdgePolicy.extend =
        outputRange.getD (outputRange.length - 2) 0 +
          (outputRange.getLastD 0 - outputRange.getD (outputRange.length - 2) 0) /
            (inputRange.getLastD 0 - inputRange.getD (inputRange.length - 2) 0) *
            (x - inputRange.getD (inputRange.length - 2) 0))) := by
  have hne : inputRange ≠ [] := by
    intro h
    rw [h] at h2
    simp at h2
  have hne' : outputRange ≠ [] := by
    intro h
    rw [h, List.length_nil] at hlen
    omega
  constructor
  · intro hx
    have hall := lt_all_of_lt_headD hs hne hx
    have hseg : segIndex x inputRange = 0 := segIndex_left hall
    constructor
    · intro eR
      simp only [interpolate, hseg, if_pos hx]
      rw [getD_zero outputRange 0 hne']
      ring
    · intro eR
      simp only [interpolate, hseg, if_pos hx]
      rw [getD_zero outputRange 0 hne', getD_zero inputRange 0 hne]
      ring
  · intro hx
    have hall := le_all_of_getLastD_lt hs hx
    have hseg : segIndex x inputRange = inputRange.length - 2 := segIndex_right hall
    have hxhead : ¬ x < inputRange.headD 0 := by
      apply not_lt.mpr
      cases inputRange with
      | nil => exact absurd rfl hne
      | cons a t => simpa using hall a (List.mem_cons_self a t)
    have hi1 : inputRange.length - 2 + 1 = inputRange.length - 1 := by omega
    have hx1 : inputRange.getD (inputRange.length - 1) 0 = inputRange.getLastD 0 :=
      getD_last inputRange 0 hne
    have hy1 : outputRange.getD (outputRange.length - 1) 0 = outputRange.getLastD 0 :=
      getD_last outputRange 0 hne'
    have hx01 : inputRange.getD (inputRange.length - 2) 0
        < inputRange.getD (inputRange.length - 1) 0 :=
      sorted_getD_lt 0 hs (by omega) (by omega)
    have hsub : inputRange.getLastD 0 - inputRange.getD (inputRange.length - 2) 0 ≠ 0 := by
      rw [← hx1]
      exact sub_ne_zero.mpr (ne_of_gt hx01)
    clear hx01
    have houty : outputRange.getD (inputRange.length - 1) 0 = outputRange.getLastD 0 := by
      rw [hlen]
      exact hy1
    have houtidx : outputRange.getD (inputRange.length - 2) 0
        = outputRange.getD (outputRange.length - 2) 0 := by
      rw [hlen]
    constructor
    · intro eL
      simp only [interpolate, hseg, if_neg hxhead, if_pos hx]
      rw [hi1, hx1, houty, mul_div_cancel_right₀ _ hsub]
      ring
    · intro eL
      simp only [interpolate, hseg, if_neg hxhead, if_pos hx]
      rw [hi1, hx1, houty, houtidx]
      ring

/-- Claim C8: calls with mismatched range lengths or a non-monotonic
input range fail with a `ConfigurationError`; well-formed calls (equal
lengths at least 2, strictly monotonic input) never do. -/
theorem interpolate_configuration_errors
    (x : ℚ) (inputRange outputRange : List ℚ) (eL eR : EdgePolicy) :
    ((inputRange.length ≠ outputRange.length ∨ ¬ List.Chain' (· < ·) inputRange) →
      ∃ e, interpolateChecked x inputRange outputRange eL eR = Except.error e) ∧
    (inputRange.length = outputRange.length → 2 ≤ inputRange.length →
      List.Chain' (· < ·) inputRange →
      interpolateChecked x inputRange outputRange eL eR =
        Except.ok (interpolate x inputRange outputRange eL eR)) := by
  constructor
  · intro h
    unfold interpolateChecked
    rcases h with hl | hm
    · rw [if_pos hl]
      exact ⟨_, rfl⟩
    · by_cases hl2 : inputRange.length ≠ outputRange.length
      · rw [if_pos hl2]
        exact ⟨_, rfl⟩
      · rw [if_neg hl2, if_pos hm]
        exact ⟨_, rfl⟩
  · intro hl h2' hc
    unfold interpolateChecked
    rw [if_neg (not_not_intro hl), if_neg (not_not_intro hc),
      if_neg (not_lt.mpr h2')]

/-- Claim C8 witness. -/
theorem interpolate_configuration_errors_witness :
    interpolateChecked (1 / 2 : ℚ) [0, 1] [0, 1] EdgePolicy.clamp EdgePolicy.clamp =
      Except.ok (interpolate (1 / 2 : ℚ) [0, 1] [0, 1] EdgePolicy.clamp EdgePolicy.clamp) :=
  (interpolate_configuration_errors (1 / 2 : ℚ) [0, 1] [0, 1]
    EdgePolicy.clamp EdgePolicy.clamp).2 rfl (by norm_num) (by norm_num)

/-- Claim C6: the two-breakpoint fade envelope `(405, 1) → (450, 0)`
takes value `2/9 ≈ 0.222` at 440, `1` at 400 and `0` at 460; in general
a fade `(fadeStart, 1) → (fadeEnd, 0)` is `1` before `fadeStart`, `0`
after `fadeEnd` and linear in between. -/
theorem envelope_fade_law :
    (fadeEnvelope 405 450).valueAt 440 = 2 / 9 ∧
    |(fadeEnvelope 405 450).valueAt 440 - 222 / 1000| < 1 / 1000 ∧
    (fadeEnvelope 405 450).valueAt 400 = 1 ∧
    (fadeEnvelope 405 450).valueAt 460 = 0 ∧
    (∀ fadeStart fadeEnd t : ℚ, fadeStart < fadeEnd →
      (t ≤ fadeStart → (fadeEnvelope fadeStart fadeEnd).valueAt t = 1) ∧
      (fadeEnd ≤ t → (fadeEnvelope fadeStart fadeEnd).valueAt t = 0) ∧
      (fadeStart ≤ t → t ≤ fadeEnd →
        (fadeEnvelope fadeStart fadeEnd).valueAt t =
          1 - (t - fadeStart) / (fadeEnd - fadeStart))) := by
  have hval : ∀ fs fe t : ℚ, (fadeEnvelope fs fe).valueAt t =
      1 + (0 - 1) * ((if t < fs then fs else if fe < t then fe else t) - fs) / (fe - fs) := by
    intro fs fe t
    simp only [Envelope.valueAt, fadeEnvelope, List.map_cons, List.map_nil]
    rw [interpolate_pair]
  have h440 : (fadeEnvelope 405 450).valueAt 440 = 2 / 9 := by
    rw [hval]
    norm_num
  refine ⟨h440, ?_, ?_, ?_, ?_⟩
  · rw [h440, abs_of_nonneg (by norm_num)]
    norm_num
  · rw [hval]
    norm_num
  · rw [hval]
    norm_num
  · intro fs fe t hlt
    have hne : fe - fs ≠ 0 := sub_ne_zero.mpr (ne_of_gt hlt)
    refine ⟨?_, ?_, ?_⟩
    · intro ht
      rw [hval]
      rcases lt_or_eq_of_le ht with h | h
      · rw [if_pos h]
        ring
      · subst h
        rw [if_neg (lt_irrefl _), if_neg (not_lt.mpr hlt.le)]
        ring
    · intro ht
      rw [hval, if_neg (not_lt.mpr (le_trans hlt.le ht))]
      rcases lt_or_eq_of_le ht with h | h
      · rw [if_pos h]
        field_simp
      · rw [← h, if_neg (lt_irrefl _)]
        field_simp
    · intro ht1 ht2
      rw [hval, if_neg (not_lt.mpr ht1), if_neg (not_lt.mpr ht2)]
      field_simp

/-- Claim C6 witness. -/
theorem envelope_fade_law_witness :
    (fadeEnvelope 0 10).valueAt (-3) = 1 :=
  (envelope_fade_law.2.2.2.2 0 10 (-3) (by norm_num)).1 (by norm_num)

theorem sqrt_hundred : Real.sqrt 100 = 10 := by
  rw [show (100 : ℝ) = 10 ^ 2 by norm_num, Real.sqrt_sq (by norm_num : (0 : ℝ) ≤ 10)]

theorem dampingRatio_demo_20 : dampingRatio 1 100 20 = 1 := by
  rw [dampingRatio, mul_one, sqrt_hundred]
  norm_num

theorem angularFreq_demo : angularFreq 1 100 = 10 := by
  rw [angularFreq, div_one, sqrt_hundred]

theorem oscPos_critical (t : ℝ) : oscPos 1 100 20 t = gCrit t := by
  rw [oscPos, dampingRatio_demo_20, angularFreq_demo, if_neg (lt_irrefl 1), if_pos rfl, gCrit]

/-- The identity mapping of the normalized range `[0,1] → [0,1]`. -/
theorem interpolate_id01 (p : ℝ) :
    interpolate p [0, 1] [0, 1] EdgePolicy.extend EdgePolicy.extend = p := by
  rw [interpolate_pair]
  split_ifs <;> ring

theorem fadeValue_eq (off : ℝ) :
    fadeValue off = if off < 0 then 0 else gCrit (off / 15) := by
  rw [fadeValue, evaluate]
  split_ifs with h
  · rfl
  · show interpolate (oscPos 1 100 20 (off / 15)) [0, 1] [(0 : ℝ), 1]
      EdgePolicy.extend EdgePolicy.extend = gCrit (off / 15)
    rw [oscPos_critical, interpolate_id01]

theorem gCrit_hasDerivAt (t : ℝ) :
    HasDerivAt gCrit (100 * t * Real.exp (-(10 * t))) t := by
  have h1 : HasDerivAt (fun u : ℝ => -(10 * u)) (-10) t := by
    simpa using (hasDerivAt_id t).const_mul (-10 : ℝ)
  have h2 : HasDerivAt (fun u : ℝ => Real.exp (-(10 * u)))
      (Real.exp (-(10 * t)) * -10) t := h1.exp
  have h3 : HasDerivAt (fun u : ℝ => 1 + 10 * u) 10 t := by
    simpa using ((hasDerivAt_id t).const_mul (10 : ℝ)).const_add 1
  have h4 := (h2.mul h3).const_sub 1
  have hg : gCrit = fun u : ℝ => 1 - Real.exp (-(10 * u)) * (1 + 10 * u) := rfl
  rw [hg]
  convert h4 using 1
  ring

theorem gCrit_monotoneOn : MonotoneOn gCrit (Set.Ici (0 : ℝ)) := by
  apply monotoneOn_of_deriv_nonneg (convex_Ici 0)
  · apply Continuous.continuousOn
    unfold gCrit
    fun_prop
  · intro x _
    exact (gCrit_hasDerivAt x).differentiableAt.differentiableWithinAt
  · intro x hx
    rw [interior_Ici] at hx
    rw [(gCrit_hasDerivAt x).deriv]
    have hx' : (0 : ℝ) < x := hx
    positivity

theorem gCrit_zero : gCrit 0 = 0 := by
  rw [gCrit]
  norm_num

theorem gCrit_le_one (t : ℝ) (h : 0 ≤ t) : gCrit t ≤ 1 := by
  rw [gCrit]
  have h1 : 0 ≤ Real.exp (-(10 * t)) * (1 + 10 * t) :=
    mul_nonneg (Real.exp_nonneg _) (by linarith)
  linarith

theorem gCrit_nonneg (t : ℝ) (h : 0 ≤ t) : 0 ≤ gCrit t := by
  calc (0 : ℝ) = gCrit 0 := gCrit_zero.symm
    _ ≤ gCrit t := gCrit_monotoneOn Set.left_mem_Ici h h

theorem gCrit_tendsto : Filter.Tendsto gCrit Filter.atTop (nhds 1) := by
  have h10 : Filter.Tendsto (fun t : ℝ => 10 * t) Filter.atTop Filter.atTop :=
    Filter.Tendsto.const_mul_atTop (by norm_num) Filter.tendsto_id
  have h1 : Filter.Tendsto (fun t : ℝ => Real.exp (-(10 * t))) Filter.atTop (nhds 0) :=
    Real.tendsto_exp_atBot.comp (Filter.tendsto_neg_atTop_atBot.comp h10)
  have h2 : Filter.Tendsto (fun t : ℝ => (10 * t) ^ 1 * Real.exp (-(10 * t)))
      Filter.atTop (nhds 0) :=
    (Real.tendsto_pow_mul_exp_neg_atTop_nhds_zero 1).comp h10
  have h3 : Filter.Tendsto (fun t : ℝ => Real.exp (-(10 * t)) * (1 + 10 * t))
      Filter.atTop (nhds 0) := by
    have hsum := h1.add h2
    rw [add_zero] at hsum
    apply hsum.congr
    intro t
    ring
  have h4 := h3.const_sub 1
  rw [sub_zero] at h4
  exact h4

theorem fadeValue_le_one (t : ℝ) : fadeValue t ≤ 1 := by
  rw [fadeValue_eq]
  split_ifs with h
  · norm_num
  · exact gCrit_le_one _ (div_nonneg (not_lt.mp h) (by norm_num))

theorem fadeValue_mono : ∀ s t : ℝ, s ≤ t → fadeValue s ≤ fadeValue t := by
  intro s t hst
  rw [fadeValue_eq, fadeValue_eq]
  by_cases h1 : s < 0
  · rw [if_pos h1]
    by_cases h2 : t < 0
    · rw [if_pos h2]
    · rw [if_neg h2]
      exact gCrit_nonneg _ (div_nonneg (not_lt.mp h2) (by norm_num))
  · rw [if_neg h1]
    have h2 : ¬ t < 0 := fun h => h1 (lt_of_le_of_lt hst h)
    rw [if_neg h2]
    exact gCrit_monotoneOn (div_nonneg (not_lt.mp h1) (by norm_num))
      (div_nonneg (not_lt.mp h2) (by norm_num)) (by gcongr)

theorem fadeValue_tendsto : Filter.Tendsto fadeValue Filter.atTop (nhds 1) := by
  have hdiv : Filter.Tendsto (fun off : ℝ => off / 15) Filter.atTop Filter.atTop :=
    Filter.Tendsto.atTop_div_const (by norm_num) Filter.tendsto_id
  have h := gCrit_tendsto.comp hdiv
  refine Filter.Tendsto.congr' ?_ h
  filter_upwards [Filter.eventually_ge_atTop (0 : ℝ)] with off hoff
  rw [Function.comp_apply, fadeValue_eq, if_neg (not_lt.mpr hoff)]

/-- Claim C3: the critically damped `damping = 20` FadeIn spring over the
normalized range `0 → 1` is non-decreasing in the frame offset, never
exceeds `1` (tolerance zero suffices), and converges to `1`. -/
theorem spring_monotonic_settling :
    (∀ s t : ℝ, s ≤ t → fadeValue s ≤ fadeValue t) ∧
    (∀ t : ℝ, fadeValue t ≤ 1) ∧
    Filter.Tendsto fadeValue Filter.atTop (nhds 1) :=
  ⟨fadeValue_mono, fadeValue_le_one, fadeValue_tendsto⟩

/-- Claim C3 witness. -/
theorem spring_monotonic_settling_witness : fadeValue 0 ≤ fadeValue 1 :=
  spring_monotonic_settling.1 0 1 (by norm_num)

/-- Claim C4: for a negative frame offset the solver returns the start
value, and `isSettled` is false unless the spec starts trivially settled
(target within tolerance of the start); the normalized demo spring
returns `0` and is not settled. -/
theorem spring_pre_start_rest (off fps : ℝ) (s : SpringSpec) (h : off < 0) :
    (evaluate off fps s).value = s.from' ∧
    (¬ |s.to' - s.from'| < settleTolerance → ¬ (evaluate off fps s).isSettled) ∧
    (evaluate off 15 (springConfigDamping 20)).value = 0 ∧
    ¬ (evaluate off 15 (springConfigDamping 20)).isSettled := by
  have he : evaluate off fps s =
      { value := s.from', isSettled := |s.to' - s.from'| < settleTolerance } := by
    rw [evaluate, if_pos h]
  have he20 : evaluate off 15 (springConfigDamping 20) =
      { value := (springConfigDamping 20).from',
        isSettled := |(springConfigDamping 20).to' - (springConfigDamping 20).from'|
          < settleTolerance } := by
    rw [evaluate, if_pos h]
  refine ⟨by rw [he], by rw [he]; exact id, by rw [he20]; rfl, ?_⟩
  rw [he20]
  show ¬ |(1 : ℝ) - 0| < settleTolerance
  rw [settleTolerance]
  norm_num

/-- Claim C4 witness. -/
theorem spring_pre_start_rest_witness :
    (evaluate (-1) 15 (springConfigDamping 30)).value = (springConfigDamping 30).from' ∧
    ¬ (evaluate (-1) 15 (springConfigDamping 20)).isSettled := by
  have h := spring_pre_start_rest (-1) 15 (springConfigDamping 30) (by norm_num)
  exact ⟨h.1, h.2.2.2⟩

theorem sqrt5_pos : 0 < Real.sqrt 5 := Real.sqrt_pos.mpr (by norm_num)

theorem sq_sqrt5 : Real.sqrt 5 ^ 2 = 5 := Real.sq_sqrt (by norm_num)

theorem sqrt5_lt : Real.sqrt 5 < 2.2360680 := by
  nlinarith [sq_sqrt5, Real.sqrt_nonneg 5]

theorem sqrt5_gt : (2.2360679 : ℝ) < Real.sqrt 5 := by
  nlinarith [sq_sqrt5, Real.sqrt_nonneg 5]

theorem rA_pos : 0 < rA := by
  rw [rA]
  nlinarith [sqrt5_lt]

theorem rA_lt_rB : rA < rB := by
  rw [rA, rB]
  nlinarith [sqrt5_pos]

theorem rB_pos : 0 < rB := lt_trans rA_pos rA_lt_rB

theorem rB_sub_rA : rB - rA = 10 * Real.sqrt 5 := by
  rw [rA, rB]
  ring

theorem rB_sub_rA_pos : 0 < rB - rA := by
  rw [rB_sub_rA]
  positivity

theorem rA_mul_rB : rA * rB = 100 := by
  rw [rA, rB]
  nlinarith [sq_sqrt5]

theorem dampingRatio_demo_30 : dampingRatio 1 100 30 = 3 / 2 := by
  rw [dampingRatio, mul_one, sqrt_hundred]
  norm_num

theorem sqrt_ratio_30 : Real.sqrt ((3 / 2 : ℝ) ^ 2 - 1) = Real.sqrt 5 / 2 := by
  rw [show ((3 / 2 : ℝ) ^ 2 - 1) = 5 / 4 by norm_num]
  rw [show (5 / 4 : ℝ) = (Real.sqrt 5 / 2) ^ 2 by
    rw [div_pow, Real.sq_sqrt (by norm_num : (0 : ℝ) ≤ 5)]
    norm_num]
  exact Real.sqrt_sq (by positivity)

theorem oscPos_over_30 (t : ℝ) : oscPos 1 100 30 t = gOver t := by
  rw [oscPos, dampingRatio_demo_30, angularFreq_demo, sqrt_ratio_30]
  rw [if_neg (by norm_num), if_neg (by norm_num)]
  have ha : (3 / 2 * 10 - 10 * (Real.sqrt 5 / 2) : ℝ) = rA := by
    rw [rA]
    ring
  have hb : (3 / 2 * 10 + 10 * (Real.sqrt 5 / 2) : ℝ) = rB := by
    rw [rB]
    ring
  have hd : (2 * (10 * (Real.sqrt 5 / 2)) : ℝ) = rB - rA := by
    rw [rB_sub_rA]
    ring
  rw [ha, hb, hd, gOver]

theorem oscVel_over_30 (t : ℝ) : oscVel 1 100 30 t = gOverVel t := by
  rw [oscVel, dampingRatio_demo_30, angularFreq_demo, sqrt_ratio_30]
  rw [if_neg (by norm_num), if_neg (by norm_num)]
  have ha : (3 / 2 * 10 - 10 * (Real.sqrt 5 / 2) : ℝ) = rA := by
    rw [rA]
    ring
  have hb : (3 / 2 * 10 + 10 * (Real.sqrt 5 / 2) : ℝ) = rB := by
    rw [rB]
    ring
  have hd : (2 * (10 * (Real.sqrt 5 / 2)) : ℝ) = rB - rA := by
    rw [rB_sub_rA]
    ring
  rw [ha, hb, hd, gOverVel]

theorem gOver_hasDerivAt (t : ℝ) :
    HasDerivAt gOver (rA * rB / (rB - rA) *
      (Real.exp (-(rA * t)) - Real.exp (-(rB * t)))) t := by
  have hA : HasDerivAt (fun u : ℝ => Real.exp (-(rA * u)))
      (Real.exp (-(rA * t)) * -rA) t := by
    have h1 : HasDerivAt (fun u : ℝ => -(rA * u)) (-rA) t := by
      simpa using (hasDerivAt_id t).const_mul (-rA)
    exact h1.exp
  have hB : HasDerivAt (fun u : ℝ => Real.exp (-(rB * u)))
      (Real.exp (-(rB * t)) * -rB) t := by
    have h1 : HasDerivAt (fun u : ℝ => -(rB * u)) (-rB) t := by
      simpa using (hasDerivAt_id t).const_mul (-rB)
    exact h1.exp
  have hsum := ((hA.const_mul rB).sub (hB.const_mul rA)).div_const (rB - rA)
  have h4 := hsum.const_sub 1
  have hg : gOver = fun u : ℝ =>
      1 - (rB * Real.exp (-(rA * u)) - rA * Real.exp (-(rB * u))) / (rB - rA) := rfl
  rw [hg]
  convert h4 using 1
  ring

theorem gOver_monotoneOn : MonotoneOn gOver (Set.Ici (0 : ℝ)) := by
  apply monotoneOn_of_deriv_nonneg (convex_Ici 0)
  · apply Continuous.continuousOn
    unfold gOver
    fun_prop
  · intro x _
    exact (gOver_hasDerivAt x).differentiableAt.differentiableWithinAt
  · intro x hx
    rw [interior_Ici] at hx
    rw [(gOver_hasDerivAt x).deriv]
    have hx' : (0 : ℝ) ≤ x := le_of_lt hx
    have hexp : Real.exp (-(rB * x)) ≤ Real.exp (-(rA * x)) :=
      Real.exp_le_exp.mpr (by nlinarith [rA_lt_rB])
    apply mul_nonneg
      (div_nonneg (mul_nonneg rA_pos.le rB_pos.le) rB_sub_rA_pos.le)
    linarith

theorem gOver_zero : gOver 0 = 0 := by
  have hne : rB - rA ≠ 0 := ne_of_gt rB_sub_rA_pos
  rw [gOver, show -(rA * (0 : ℝ)) = 0 by ring, show -(rB * (0 : ℝ)) = 0 by ring,
    Real.exp_zero, mul_one, mul_one, div_self hne, sub_self]

theorem gOver_nonneg (t : ℝ) (h : 0 ≤ t) : 0 ≤ gOver t := by
  calc (0 : ℝ) = gOver 0 := gOver_zero.symm
    _ ≤ gOver t := gOver_monotoneOn Set.left_mem_Ici h h

theorem gOver_le_one (t : ℝ) (h : 0 ≤ t) : gOver t ≤ 1 := by
  rw [gOver]
  have hexp : Real.exp (-(rB * t)) ≤ Real.exp (-(rA * t)) :=
    Real.exp_le_exp.mpr (by nlinarith [rA_lt_rB])
  have h1 : rA * Real.exp (-(rB * t)) ≤ rB * Real.exp (-(rA * t)) :=
    mul_le_mul rA_lt_rB.le hexp (Real.exp_nonneg _) rB_pos.le
  have h2 : 0 ≤ (rB * Real.exp (-(rA * t)) - rA * Real.exp (-(rB * t))) / (rB - rA) :=
    div_nonneg (by linarith) rB_sub_rA_pos.le
  linarith

theorem evaluate30_value (off : ℝ) :
    (evaluate off 15 (springConfigDamping 30)).value =
      if off < 0 then 0 else gOver (off / 15) := by
  rw [evaluate]
  split_ifs with h
  · rfl
  · show interpolate (oscPos 1 100 30 (off / 15)) [0, 1] [(0 : ℝ), 1]
      EdgePolicy.extend EdgePolicy.extend = gOver (off / 15)
    rw [oscPos_over_30, interpolate_id01]

theorem evaluate30_isSettled (off : ℝ) (h : ¬ off < 0) :
    (evaluate off 15 (springConfigDamping 30)).isSettled ↔
      (|1 - gOver (off / 15)| < settleTolerance ∧
        |gOverVel (off / 15)| < settleTolerance) := by
  rw [evaluate, if_neg h]
  show (|(1 : ℝ) - interpolate (oscPos 1 100 30 (off / 15)) [0, 1] [(0 : ℝ), 1]
        EdgePolicy.extend EdgePolicy.extend| < settleTolerance ∧
      |((1 : ℝ) - 0) * oscVel 1 100 30 (off / 15)| < settleTolerance) ↔ _
  rw [oscPos_over_30, interpolate_id01, oscVel_over_30,
    show ((1 : ℝ) - 0) = 1 by norm_num, one_mul]

theorem terminalProgress_eq (frame delay : ℕ) :
    terminalProgress frame delay =
      if ((frame : ℝ) - delay) < 0 then 0 else gOver (((frame : ℝ) - delay) / 15) :=
  evaluate30_value _

theorem terminalProgress_nonneg (frame delay : ℕ) : 0 ≤ terminalProgress frame delay := by
  rw [terminalProgress_eq]
  split_ifs with h
  · exact le_refl 0
  · exact gOver_nonneg _ (div_nonneg (by linarith [not_lt.mp h]) (by norm_num))

theorem terminalProgress_le_one (frame delay : ℕ) : terminalProgress frame delay ≤ 1 := by
  rw [terminalProgress_eq]
  split_ifs with h
  · norm_num
  · exact gOver_le_one _ (div_nonneg (by linarith [not_lt.mp h]) (by norm_num))

theorem terminalProgress_mono (frame frame' delay : ℕ) (h : frame ≤ frame') :
    terminalProgress frame delay ≤ terminalProgress frame' delay := by
  rw [terminalProgress_eq, terminalProgress_eq]
  have hle : (frame : ℝ) - delay ≤ (frame' : ℝ) - delay :=
    sub_le_sub_right (Nat.cast_le.mpr h) _
  by_cases h1 : (frame : ℝ) - delay < 0
  · rw [if_pos h1]
    by_cases h2 : (frame' : ℝ) - delay < 0
    · rw [if_pos h2]
    · rw [if_neg h2]
      exact gOver_nonneg _ (div_nonneg (by linarith [not_lt.mp h2]) (by norm_num))
  · rw [if_neg h1]
    have h2 : ¬ (frame' : ℝ) - delay < 0 := fun hn => h1 (lt_of_le_of_lt hle hn)
    rw [if_neg h2]
    exact gOver_monotoneOn (div_nonneg (by linarith [not_lt.mp h1]) (by norm_num))
      (div_nonneg (by linarith [not_lt.mp h2]) (by norm_num)) (by gcongr)

/-- Claim C10: the rendered TerminalLine text is always a prefix of the
configured text (`take` of it), the revealed count is
`⌊progress * length⌋`, bounded by the length, non-decreasing in the
frame, and the full text is rendered whenever the spring progress
exceeds `0.99`. -/
theorem terminalLine_text_invariants (frame frame' delay : ℕ) (text : List Char) :
    (∃ n, terminalRendered frame delay text = text.take n) ∧
    terminalChars frame delay text = ⌊terminalProgress frame delay * text.length⌋₊ ∧
    terminalChars frame delay text ≤ text.length ∧
    (frame ≤ frame' → terminalChars frame delay text ≤ terminalChars frame' delay text) ∧
    (0.99 < terminalProgress frame delay → terminalRendered frame delay text = text) := by
  refine ⟨?_, rfl, ?_, ?_, ?_⟩
  · rw [terminalRendered]
    split_ifs with h
    · exact ⟨text.length, (List.take_length text).symm⟩
    · exact ⟨_, rfl⟩
  · rw [terminalChars]
    calc ⌊terminalProgress frame delay * text.length⌋₊
        ≤ ⌊(text.length : ℝ)⌋₊ := by
          apply Nat.floor_le_floor
          nlinarith [terminalProgress_le_one frame delay,
            terminalProgress_nonneg frame delay,
            Nat.cast_nonneg (α := ℝ) text.length]
      _ = text.length := Nat.floor_natCast _
  · intro h
    rw [terminalChars, terminalChars]
    exact Nat.floor_le_floor
      (mul_le_mul_of_nonneg_right (terminalProgress_mono _ _ _ h) (Nat.cast_nonneg _))
  · intro h
    rw [terminalRendered, if_pos h]

/-- Claim C10 witness. -/
theorem terminalLine_text_invariants_witness :
    terminalChars 0 0 ['a'] ≤ terminalChars 1 0 ['a'] :=
  (terminalLine_text_invariants 0 1 0 ['a']).2.2.2.1 (by norm_num)

theorem exp_neg_rA_73_le : Real.exp (-(rA * (7 / 3))) ≤ 1 / 5600 := by
  have h1 : (8.9 : ℝ) ≤ rA * (7 / 3) := by
    rw [rA]
    nlinarith [sqrt5_lt]
  have h2 : Real.exp (-(rA * (7 / 3))) ≤ Real.exp (-(8.9 : ℝ)) :=
    Real.exp_le_exp.mpr (by linarith)
  have h8 : Real.exp (8 : ℝ) = Real.exp 1 ^ 8 := by
    rw [← Real.exp_nat_mul]
    norm_num
  have he : Real.exp (8.9 : ℝ) = Real.exp 1 ^ 8 * Real.exp 0.9 := by
    rw [show (8.9 : ℝ) = 8 + 0.9 by norm_num, Real.exp_add, h8]
  have hexp1 : (2.7182818 : ℝ) ≤ Real.exp 1 :=
    le_of_lt (lt_trans (by norm_num) Real.exp_one_gt_d9)
  have hexp09 : (1.9 : ℝ) ≤ Real.exp 0.9 := by
    have := Real.add_one_le_exp (0.9 : ℝ)
    linarith
  have hpow : (2.7182818 : ℝ) ^ 8 ≤ Real.exp 1 ^ 8 :=
    pow_le_pow_left₀ (by norm_num) hexp1 8
  have h3 : (5600 : ℝ) ≤ Real.exp 8.9 := by
    calc (5600 : ℝ) ≤ 2.7182818 ^ 8 * 1.9 := by norm_num
      _ ≤ Real.exp 1 ^ 8 * Real.exp 0.9 :=
          mul_le_mul hpow hexp09 (by norm_num) (by positivity)
      _ = Real.exp 8.9 := he.symm
  have h4 : Real.exp (-(8.9 : ℝ)) ≤ 1 / 5600 := by
    rw [Real.exp_neg, one_div]
    exact inv_anti₀ (by norm_num) h3
  linarith

theorem settled_at_frame_35 :
    |1 - gOver (7 / 3)| < settleTolerance ∧
    |gOverVel (7 / 3)| < settleTolerance ∧
    (0.99 : ℝ) < gOver (7 / 3) := by
  have hε := exp_neg_rA_73_le
  have hEB : Real.exp (-(rB * (7 / 3))) ≤ Real.exp (-(rA * (7 / 3))) :=
    Real.exp_le_exp.mpr (by nlinarith [rA_lt_rB])
  have hEApos := Real.exp_pos (-(rA * (7 / 3)))
  have hEBpos := Real.exp_pos (-(rB * (7 / 3)))
  have hone : 1 - gOver (7 / 3) =
      (rB * Real.exp (-(rA * (7 / 3))) - rA * Real.exp (-(rB * (7 / 3)))) / (rB - rA) := by
    rw [gOver]
    ring
  have hrB : rB ≤ 26.2 := by
    rw [rB]
    nlinarith [sqrt5_lt]
  have hden : (22.3 : ℝ) ≤ rB - rA := by
    rw [rB_sub_rA]
    nlinarith [sqrt5_gt]
  have hnum_nonneg :
      0 ≤ rB * Real.exp (-(rA * (7 / 3))) - rA * Real.exp (-(rB * (7 / 3))) := by
    have := mul_le_mul rA_lt_rB.le hEB hEBpos.le rB_pos.le
    linarith
  have hdisp_nonneg : 0 ≤ 1 - gOver (7 / 3) := by
    rw [hone]
    exact div_nonneg hnum_nonneg rB_sub_rA_pos.le
  have hdisp : 1 - gOver (7 / 3) < 1 / 1000 := by
    rw [hone, div_lt_iff₀ rB_sub_rA_pos]
    nlinarith [mul_pos rA_pos hEBpos, hε, hrB, hden, rB_pos]
  have hvel_nonneg : 0 ≤ gOverVel (7 / 3) := by
    rw [gOverVel]
    apply mul_nonneg
      (div_nonneg (mul_nonneg rA_pos.le rB_pos.le) rB_sub_rA_pos.le)
    linarith
  have hvel : gOverVel (7 / 3) < 1 / 1000 := by
    rw [gOverVel, rA_mul_rB, div_mul_eq_mul_div, div_lt_iff₀ rB_sub_rA_pos]
    nlinarith [hε, hEBpos, hden]
  refine ⟨?_, ?_, ?_⟩
  · rw [abs_of_nonneg hdisp_nonneg, settleTolerance]
    exact hdisp
  · rw [abs_of_nonneg hvel_nonneg, settleTolerance]
    exact hvel
  · linarith

/-- Claim C7 counterexample: at frame 35 the delay-0 terminal line's
`damping = 30` spring is settled (displacement and velocity both below
the 0.001 tolerance), yet the blinking cursor is still rendered because
`nextDelay = 40` has not been reached — so the cursor does not stop when
the spring settles. -/
theorem cursor_visible_while_settled :
    (evaluate (35 : ℝ) 15 (springConfigDamping 30)).isSettled ∧
    cursorVisible 35 0 (some 40) := by
  have h73 : (35 : ℝ) / 15 = 7 / 3 := by norm_num
  have hset := settled_at_frame_35
  constructor
  · rw [evaluate30_isSettled (35 : ℝ) (by norm_num), h73]
    exact ⟨hset.1, hset.2.1⟩
  · have hp : terminalProgress 35 0 = gOver (7 / 3) := by
      rw [terminalProgress_eq]
      norm_num
    refine Or.inl ⟨by norm_num, ?_, by norm_num [blinkOn]⟩
    rw [hp]
    exact hset.2.2

/-- Claim C7 amended: the cursor of a TerminalLine is a blink-gated
effect governed by `done` (`progress > 0.99`) and `nextDelay`, not by the
spring's settledness: on blink-on frames before `nextDelay` it is
rendered; once `nextDelay ≤ frame` and the line is done it is no longer
rendered; on blink-off frames it is never rendered. -/
theorem cursor_stops_at_next_delay (frame delay n : ℕ) :
    (n ≤ frame → 0.99 < terminalProgress frame delay →
      ¬ cursorVisible frame delay (some n)) ∧
    (frame < n → blinkOn frame → cursorVisible frame delay (some n)) ∧
    (¬ blinkOn frame → ∀ nd, ¬ cursorVisible frame delay nd) := by
  refine ⟨?_, ?_, ?_⟩
  · intro hn hdone hvis
    rcases hvis with ⟨hshow, _, _⟩ | ⟨hnd, _⟩
    · exact absurd hn (not_le.mpr hshow)
    · exact hnd hdone
  · intro hf hb
    by_cases hdone : 0.99 < terminalProgress frame delay
    · exact Or.inl ⟨hf, hdone, hb⟩
    · exact Or.inr ⟨hdone, hb⟩
  · intro hb nd hvis
    rcases hvis with ⟨_, _, hblink⟩ | ⟨_, hblink⟩ <;> exact absurd hblink hb

/-- Claim C7 witness (for the amended claim). -/
theorem cursor_stops_at_next_delay_witness : cursorVisible 3 0 (some 40) :=
  (cursor_stops_at_next_delay 3 0 40).2.1 (by norm_num) (by norm_num [blinkOn])

theorem lookup_resolveOrder (l : List ℕ) (g : ℕ) (hg : g ∈ l) :
    (resolveOrder l).lookup g = some (demoFrame g) := by
  induction l with
  | nil => cases hg
  | cons a t ih =>
    rw [resolveOrder, List.map_cons]
    by_cases h : g = a
    · subst h
      simp [List.lookup]
    · have hne : (g == a) = false := beq_eq_false_iff_ne.mpr h
      rw [List.lookup, hne]
      exact ih (List.mem_of_ne_of_mem h hg)

/-- Claim C1: spring evaluation is a pure function of its arguments —
two evaluations with identical arguments are identical — and resolving
the 600-frame demo composition in increasing order versus in reverse
order yields identical per-frame FrameStates. -/
theorem resolution_deterministic_order_independent :
    (∀ (off fps : ℝ) (s : SpringSpec), evaluate off fps s = evaluate off fps s) ∧
    (∀ order : List ℕ, resolveOrder order.reverse = (resolveOrder order).reverse) ∧
    (∀ g : ℕ, g < 600 →
      (resolveOrder (List.range 600)).lookup g = some (demoFrame g) ∧
      (resolveOrder ((List.range 600).reverse)).lookup g = some (demoFrame g)) := by
  refine ⟨fun _ _ _ => rfl, fun order => List.map_reverse _ _, fun g hg => ?_⟩
  constructor
  · exact lookup_resolveOrder _ _ (List.mem_range.mpr hg)
  · exact lookup_resolveOrder _ _ (by rw [List.mem_reverse]; exact List.mem_range.mpr hg)

/-- Claim C1 witness. -/
theorem resolution_deterministic_order_independent_witness :
    (resolveOrder (List.range 600)).lookup 0 = some (demoFrame 0) :=
  (resolution_deterministic_order_independent.2.2 0 (by norm_num)).1

/-- Claim C2: the install Sequence (`from = 90, durationInFrames = 210`)
is active exactly on global frames `90 ≤ g < 300`; while active its
content generator runs at local frame `g - 90` (0 at global 90, 209 at
global 299); at global frames 89 and 300 it is not invoked. -/
theorem sequence_windowing (g : ℕ) :
    (installSeq.activeAt g ↔ 90 ≤ g ∧ g < 300) ∧
    (installSeq.activeAt g → installSeq.resolve g = some (terminalSceneContent (g - 90))) ∧
    installSeq.resolve 90 = some (terminalSceneContent 0) ∧
    installSeq.resolve 299 = some (terminalSceneContent 209) ∧
    installSeq.resolve 89 = none ∧
    installSeq.resolve 300 = none := by
  refine ⟨?_, ?_, ?_, ?_, ?_, ?_⟩
  · show 90 ≤ g ∧ g < 90 + 210 ↔ _
    omega
  · intro h
    rw [Sequence.resolve, if_pos h]
    rfl
  · rw [Sequence.resolve,
      if_pos (show installSeq.activeAt 90 from ⟨by norm_num [installSeq], by norm_num [installSeq]⟩)]
    simp [installSeq, Sequence.localFrame]
  · rw [Sequence.resolve,
      if_pos (show installSeq.activeAt 299 from ⟨by norm_num [installSeq], by norm_num [installSeq]⟩)]
    simp [installSeq, Sequence.localFrame]
  · exact if_neg (fun h => (by norm_num : ¬ (90 : ℕ) ≤ 89) h.1)
  · exact if_neg (fun h => (by norm_num : ¬ (300 : ℕ) < 300) h.2)

/-- Claim C2 witness. -/
theorem sequence_windowing_witness :
    installSeq.resolve 95 = some (terminalSceneContent 5) := by
  have h := (sequence_windowing 95).2.1 ((sequence_windowing 95).1.mpr ⟨by norm_num, by norm_num⟩)
  exact h

/-- Claim C9: the four scene windows `(0, 90)`, `(90, 210)`,
`(300, 180)`, `(480, 120)` partition the 600-frame timeline: every
global frame below 600 activates exactly one scene Sequence. -/
theorem scenes_partition_timeline (g : ℕ) (hg : g < 600) :
    demoScenes.countP (fun s => decide (s.activeAt g)) = 1 := by
  simp only [demoScenes, installSeq, List.countP_cons, List.countP_nil,
    Sequence.activeAt, decide_eq_true_eq]
  split_ifs <;> omega

/-- Claim C9 witness. -/
theorem scenes_partition_timeline_witness :
    demoScenes.countP (fun s => decide (s.activeAt 123)) = 1 :=
  scenes_partition_timeline 123 (by norm_num)

/-- Claim C5 witness. -/
theorem interpolate_edge_policies_witness :
    interpolate (-1 : ℚ) [0, 1] [20, 0] EdgePolicy.clamp EdgePolicy.extend = 20 := by
  have h := (interpolate_edge_policies [0, 1] [20, 0] (-1)
    (by norm_num [List.sorted_cons]) (by norm_num) (by norm_num)).1 (by norm_num)
  simpa using h.1 EdgePolicy.extend
